import Mathlib

/-!
Verification of the finding ingestion / graph-enrichment pipeline and the
streaming chat front-end of the research-vuln-agent repository.

The TypeScript sources are shallowly embedded:

* `Chat` models the client-side stream reconstructor of
  `app/chat/page.tsx` and `app/chat.tsx` (function `sendMessage` and its
  inner `read` loop).  Text is represented as `List Char`; the external
  `JSON.parse`-based step decoding is an explicit function parameter.
* `Extract` models the two versions of `extractLLMContent` found in
  `frontend/app/trace/[external-id]/page.tsx` and
  `mindfort-agentic/app/trace/[external-id]/page.tsx`, over an explicit
  JavaScript value model where every possibly-throwing primitive returns
  in an exception monad.
* `GraphDB` models the Neo4j property graph as explicit node / edge lists
  together with the Cypher `MERGE`/`SET` semantics the two scripts use.
* `Ingest` models `scripts/ingest-findings.ts` (`ingestFindings`).
* `Enrich` models `enrich-graph` (`enrichGraph`), with the LLM oracle and
  the per-write success of the store as explicit parameters.
-/

namespace Chat

/-- Character-list representation of a JavaScript string. -/
abbrev Chars := List Char

/-- The fixed event marker `"data: "` checked by `line.startsWith("data: ")`. -/
def dpfx : Chars := "data: ".toList

/-- One parsed step event `\x7bstep, content, trace_id?, agent?\x7d`. -/
structure StepObj where
  step : Chars
  content : Chars
  trace_id : Option Chars := none
  agent : Option Chars := none
deriving DecidableEq, Repr

/-- JavaScript `buffer.split("\n")`: every maximal newline-free run, including
the (possibly empty) trailing run after the last newline. -/
def splitLines : Chars → List Chars
  | [] => [[]]
  | c :: cs =>
    if c = '\n' then [] :: splitLines cs
    else
      match splitLines cs with
      | [] => [[c]]
      | l :: ls => (c :: l) :: ls

/-- The step emitted by one line of the `for (const line of lines)` loop:
a line carrying the `"data: "` marker is decoded from its remainder
(`JSON.parse(line.slice(6))`, modelled by `parse`); decoding failure is
swallowed by the `try`/`catch`. -/
def emitLine (parse : Chars → Option StepObj) (l : Chars) : Option StepObj :=
  if dpfx.isPrefixOf l then parse (l.drop 6) else none

/-- The contribution of one line to `newBuffer`: lines without the marker are
appended to the carry buffer (`newBuffer += line`), marked lines never are. -/
def residueLine (l : Chars) : Chars :=
  if dpfx.isPrefixOf l then [] else l

/-- The line loop of the `read` callback: returns the new carry buffer and the
steps pushed, in arrival order. -/
def readLines (parse : Chars → Option StepObj) : List Chars → Chars × List StepObj
  | [] => ([], [])
  | l :: ls =>
    let r := readLines parse ls
    if dpfx.isPrefixOf l then
      match parse (l.drop 6) with
      | some s => (r.1, s :: r.2)
      | none => r
    else (l ++ r.1, r.2)

/-- One iteration of the `read` callback on an arriving chunk: the chunk is
appended to the carry buffer, the result is split on newlines and pushed
through the line loop. -/
def readChunk (parse : Chars → Option StepObj) (st : Chars × List StepObj)
    (chunk : Chars) : Chars × List StepObj :=
  let r := readLines parse (splitLines (st.1 ++ chunk))
  (r.1, st.2 ++ r.2)

/-- The whole read loop over the successfully delivered chunks, starting from
an empty buffer and no steps. -/
def readChunks (parse : Chars → Option StepObj) (chunks : List Chars) :
    Chars × List StepObj :=
  List.foldl (readChunk parse) ([], []) chunks

/-- Prepend a carried partial line to the first line of a line list (used to
state how `splitLines` interacts with concatenation). -/
def mergeFirst (x : Chars) : List Chars → List Chars
  | [] => [x]
  | y :: ys => (x ++ y) :: ys

/-- Join two line lists at the boundary: the last line of the first list and
the first line of the second fuse into one line. -/
def mergeLast : List Chars → List Chars → List Chars
  | [], ys => ys
  | [x], ys => mergeFirst x ys
  | x :: xs, ys => x :: mergeLast xs ys

/-- Message roles of the chat page. -/
inductive Role
  | user
  | agent
deriving DecidableEq, Repr

/-- One entry of the `messages` state array. -/
structure Msg where
  role : Role
  content : Chars
  external_trace_id : Option Chars := none
deriving DecidableEq, Repr

/-- The React state touched by `sendMessage`: `messages`, `input`, `loading`
and `agentSteps`. -/
structure ChatState where
  messages : List Msg
  input : Chars
  loading : Bool
  agentSteps : List StepObj
deriving DecidableEq, Repr

/-- How the stream ends: the connection closes normally (`done`) or a
mid-stream `reader.read()` rejects (`readError`). -/
inductive Terminal
  | done
  | readError
deriving DecidableEq, Repr

/-- A successfully opened response body: the chunks delivered before the
terminal event, and the terminal event itself. -/
structure StreamBody where
  chunks : List Chars
  terminal : Terminal
deriving Repr

/-- Outcome of the `fetch` call: the promise rejects, or it resolves with a
response whose `body` may be absent. -/
inductive FetchOutcome
  | fetchReject
  | response (body : Option StreamBody)

/-- Whitespace test used to model JavaScript `input.trim()`. -/
def isWS (c : Char) : Bool :=
  c == ' ' || c == '\n' || c == '\t' || c == '\r'

/-- JavaScript `String.prototype.trim` (over the whitespace in `isWS`). -/
def jsTrim (s : Chars) : Chars :=
  ((s.dropWhile isWS).reverse.dropWhile isWS).reverse

/-- The aggregated agent text:
`steps.map((s) => s.step + ": " + s.content).join("\n\n")`. -/
def aggContent (steps : List StepObj) : Chars :=
  List.intercalate "\n\n".toList (steps.map (fun s => s.step ++ ": ".toList ++ s.content))

/-- The aggregated message's reference identifier:
`steps.length > 0 ? steps[steps.length - 1].trace_id : undefined`. -/
def lastTraceId (steps : List StepObj) : Option Chars :=
  match steps.getLast? with
  | some s => s.trace_id
  | none => none

/-- The `sendMessage` handler of `app/chat/page.tsx` / `app/chat.tsx`.

The early guard `if (!input.trim()) return` leaves the state unchanged.
Otherwise the user message is appended, `input` is cleared, `loading` is set
and `agentSteps` reset; then, depending on the fetch outcome:

* fetch rejection — the outer `.catch(() => setLoading(false))` fires;
* missing body — `setLoading(false); return`;
* body delivered, stream closes (`done`) — the aggregated agent message is
  appended, `loading` cleared, `agentSteps` reset;
* body delivered, a mid-stream read rejects (`readError`) — the rejection of
  `reader.read()` inside `read` has no handler, so no further state update
  runs: `loading` keeps the value `true` and no message is appended;
  `agentSteps` keeps the steps parsed so far. -/
def sendMessage (parse : Chars → Option StepObj) (st : ChatState)
    (outcome : FetchOutcome) : ChatState :=
  if jsTrim st.input = [] then st
  else
    let st1 : ChatState :=
      { messages := st.messages ++ [{ role := .user, content := st.input }]
        input := []
        loading := true
        agentSteps := [] }
    match outcome with
    | .fetchReject => { st1 with loading := false }
    | .response none => { st1 with loading := false }
    | .response (some body) =>
      let r := readChunks parse body.chunks
      match body.terminal with
      | .done =>
        { st1 with
          loading := false
          messages := st1.messages ++
            [{ role := .agent
               content := aggContent r.2
               external_trace_id := lastTraceId r.2 }]
          agentSteps := [] }
      | .readError => { st1 with agentSteps := r.2 }

end Chat

section ChatExamples

open Chat

example : splitLines "a\n".toList = [['a'], []] := by decide

example : splitLines "ab\ncd".toList = [['a','b'], ['c','d']] := by decide

example :
    readLines (fun _ => some { step := ['s'], content := ['c'] })
      (splitLines "x\ndata: y\n".toList) =
      (['x'], [{ step := ['s'], content := ['c'] }]) := by decide

end ChatExamples

namespace Extract

/-- Model of a JavaScript value as obtained from `JSON.parse` or passed around
as `unknown` in the trace pages. -/
inductive JSValue where
  | undefined
  | null
  | bool (b : Bool)
  | num (n : Int)
  | str (s : String)
  | arr (elems : List JSValue)
  | obj (fields : List (String × JSValue))
deriving Repr

/-- Property lookup on a value that is not `null`/`undefined`: objects consult
their own fields, every other value yields `undefined` for the property names
the extractor uses (primitives box; arrays only carry indices and `length`). -/
def fieldVal : JSValue → String → JSValue
  | .obj fields, k => (fields.lookup k).getD .undefined
  | _, _ => .undefined

/-- JavaScript member access `v.k`: throws a `TypeError` on `null` and
`undefined`, otherwise looks the property up. -/
def getField (v : JSValue) (k : String) : Except Unit JSValue :=
  match v with
  | .undefined => .error ()
  | .null => .error ()
  | _ => .ok (fieldVal v k)

/-- JavaScript index access `v[i]`: throws on `null`/`undefined`, reads the
element (or `undefined`) on arrays, yields `undefined` otherwise. -/
def getIndex (v : JSValue) (i : Nat) : Except Unit JSValue :=
  match v with
  | .undefined => .error ()
  | .null => .error ()
  | .arr elems => .ok (elems.getD i .undefined)
  | _ => .ok .undefined

/-- The JavaScript `"k" in v` operator: throws on every non-object operand;
the property names the extractor probes are never own keys of an array. -/
def inOp (k : String) (v : JSValue) : Except Unit Bool :=
  match v with
  | .obj fields => .ok (fields.any (fun f => f.1 == k))
  | .arr _ => .ok false
  | _ => .error ()

/-- Optional chaining `v?.k`: short-circuits to `undefined` on
`null`/`undefined`, hence never throws. -/
def optChain (v : JSValue) (k : String) : JSValue :=
  match v with
  | .undefined => .undefined
  | .null => .undefined
  | _ => fieldVal v k

/-- JavaScript truthiness. -/
def truthy : JSValue → Bool
  | .undefined => false
  | .null => false
  | .bool b => b
  | .num n => !(n == 0)
  | .str s => !(s == "")
  | .arr _ => true
  | .obj _ => true

/-- Test for `typeof v === "object"` (true for `null`, arrays and objects). -/
def typeofObject : JSValue → Bool
  | .null => true
  | .arr _ => true
  | .obj _ => true
  | _ => false

/-- Test for `v === null`. -/
def isNull : JSValue → Bool
  | .null => true
  | _ => false

/-- Test for `typeof v === "string"`. -/
def isStr : JSValue → Bool
  | .str _ => true
  | _ => false

/-- `Array.isArray(v)`. -/
def isArray : JSValue → Bool
  | .arr _ => true
  | _ => false

/-- `Array.isArray(v)` as an `Option` that also exposes the elements. -/
def asArr : JSValue → Option (List JSValue)
  | .arr elems => some elems
  | _ => none

/-- The `for (const msg of messages) if (msg?.content) return msg.content`
loop shared by both extractor versions. -/
def firstMsgContent : List JSValue → Option JSValue
  | [] => none
  | m :: ms =>
    let c := optChain m "content"
    if truthy c then some c else firstMsgContent ms

/-- The single-quote character. -/
def squote : Char := Char.ofNat 39

/-- The quote normalisation `content.replace(/'/g, '"')` applied before
`JSON.parse`. -/
def normQuotes (s : String) : String :=
  String.mk (s.data.map (fun c => if c = squote then '"' else c))

/-- The shared two-test tail `if (gen?.text) return gen.text;
if (gen?.message?.content) return gen.message.content` applied to the first
generation element.  Optional chaining never throws, so this part is pure:
`some` is a `return`, `none` falls through. -/
def genFirstExtract (gen : JSValue) : Option JSValue :=
  let t := optChain gen "text"
  if truthy t then some t
  else
    let mc := optChain (optChain gen "message") "content"
    if truthy mc then some mc else none

/-- The `outputs.generations` block of the frontend version (within its
guard `typeof outputs === "object" && outputs !== null`):
`if (outputs && "generations" in outputs && Array.isArray(outputs.generations)
&& Array.isArray(outputs.generations[0]))`, the guarded construction of
`gen`, and the two-test tail. -/
def outputsGenBlock_frontend (outputs : JSValue) : Except Unit (Option JSValue) := do
  if truthy outputs then
    let hasGens ← inOp "generations" outputs
    if hasGens then
      let generations ← getField outputs "generations"
      if isArray generations then
        let firstGenArr ← getIndex generations 0
        if isArray firstGenArr then
          let e0 ← getIndex firstGenArr 0
          let gen :=
            if truthy firstGenArr && typeofObject e0 && !isNull e0 then e0
            else JSValue.undefined
          match genFirstExtract gen with
          | some r => return some r
          | none => pure ()
  pure none

/-- The `outputs.generations` block of the mindfort-agentic version:
`if (outputs.generations && Array.isArray(outputs.generations) &&
Array.isArray(outputs.generations[0]))` — the very first conjunct
dereferences `outputs`, which throws when `outputs` is `null` or
`undefined`. -/
def outputsGenBlock_mindfort (outputs : JSValue) : Except Unit (Option JSValue) := do
  let generations ← getField outputs "generations"
  if truthy generations && isArray generations then
    let g0 ← getIndex generations 0
    if isArray g0 then
      let gen ← getIndex g0 0
      match genFirstExtract gen with
      | some r => return some r
      | none => pure ()
  pure none

/-- The tail of step 2, identical in both versions:
`if (Array.isArray(outputs.messages)) { for ... }` followed by
`if (typeof outputs.output === "string") return outputs.output`. -/
def outputsMsgsOutBlock (outputs : JSValue) : Except Unit (Option JSValue) := do
  let msgs ← getField outputs "messages"
  match asArr msgs with
  | some l =>
    match firstMsgContent l with
    | some c => return some c
    | none => pure ()
  | none => pure ()
  let out ← getField outputs "output"
  if isStr out then return some out
  pure none

/-- Step 3 body, identical in both versions once `"messages" in content`
has been evaluated: `const messages = content.messages;
if (Array.isArray(messages)) { for ... }`. -/
def topMsgsBlock (content : JSValue) : Except Unit (Option JSValue) := do
  let hasMsgs ← inOp "messages" content
  if hasMsgs then
    let msgs ← getField content "messages"
    match asArr msgs with
    | some l =>
      match firstMsgContent l with
      | some c => return some c
      | none => pure none
    | none => pure none
  else pure none

/-- Step 4 body, identical in both versions once `"generations" in content`
has been evaluated: `const gens = content.generations;
if (Array.isArray(gens) && Array.isArray(gens[0])) ...`. -/
def topGensBlock (content : JSValue) : Except Unit (Option JSValue) := do
  let hasGens ← inOp "generations" content
  if hasGens then
    let gens ← getField content "generations"
    if isArray gens then
      let g0 ← getIndex gens 0
      if isArray g0 then
        let gen ← getIndex g0 0
        match genFirstExtract gen with
        | some r => return some r
        | none => pure none
      else pure none
    else pure none
  else pure none

/-- Steps 3 and 4 of the frontend version: both are guarded by
`typeof content === "object" && content !== null` in their `if`
conditions. -/
def steps34_frontend (content : JSValue) : Except Unit (Option JSValue) := do
  -- Step 3: top-level messages
  if typeofObject content && !isNull content then
    match ← topMsgsBlock content with
    | some r => return some r
    | none => pure ()
  -- Step 4: top-level generations
  if typeofObject content && !isNull content then
    match ← topGensBlock content with
    | some r => return some r
    | none => pure ()
  pure none

/-- Steps 3 and 4 of the mindfort-agentic version: the `in` probes run with
no object guard, so they throw on primitive, `null` and `undefined`
payloads. -/
def steps34_mindfort (content : JSValue) : Except Unit (Option JSValue) := do
  -- Step 3: `"messages" in (content as any)`
  match ← topMsgsBlock content with
  | some r => return some r
  | none => pure ()
  -- Step 4: `"generations" in (content as any)`
  match ← topGensBlock content with
  | some r => return some r
  | none => pure ()
  pure none

/-- Steps 2-4 of `extractLLMContent` in
`frontend/app/trace/[external-id]/page.tsx` (the code after the string /
`JSON.parse` step), with every guard of the source reproduced and every
member access routed through the throwing primitives. -/
def extractParsed_frontend (content : JSValue) : Except Unit (Option JSValue) := do
  -- Step 2: `typeof content === "object" && content !== null &&
  -- "outputs" in content && typeof outputs === "object" && outputs !== null`
  if typeofObject content && !isNull content then
    let hasOutputs ← inOp "outputs" content
    if hasOutputs then
      let outputs ← getField content "outputs"
      if typeofObject outputs && !isNull outputs then
        match ← outputsGenBlock_frontend outputs with
        | some r => return some r
        | none => pure ()
        match ← outputsMsgsOutBlock outputs with
        | some r => return some r
        | none => pure ()
  steps34_frontend content

/-- `extractLLMContent` of `frontend/app/trace/[external-id]/page.tsx`.
A string payload is normalised and handed to `JSON.parse` (the external
`jsonParse` parameter); on parse failure the original string is returned
verbatim, otherwise resolution continues on the parsed structure. -/
def extractLLMContent_frontend (jsonParse : String → Option JSValue)
    (raw : JSValue) : Except Unit (Option JSValue) :=
  match raw with
  | .str s =>
    match jsonParse (normQuotes s) with
    | some v => extractParsed_frontend v
    | none => .ok (some (.str s))
  | v => extractParsed_frontend v

/-- Steps 2-4 of `extractLLMContent` in
`mindfort-agentic/app/trace/[external-id]/page.tsx`.  This version only
checks `"outputs" in content` before dereferencing `outputs.generations`,
and probes `"messages" in content` / `"generations" in content` with no
object guard at all. -/
def extractParsed_mindfort (content : JSValue) : Except Unit (Option JSValue) := do
  -- Step 2: `typeof content === "object" && content !== null &&
  -- "outputs" in content` — no guard on `outputs` itself
  if typeofObject content && !isNull content then
    let hasOutputs ← inOp "outputs" content
    if hasOutputs then
      let outputs ← getField content "outputs"
      match ← outputsGenBlock_mindfort outputs with
      | some r => return some r
      | none => pure ()
      match ← outputsMsgsOutBlock outputs with
      | some r => return some r
      | none => pure ()
  steps34_mindfort content

/-- `extractLLMContent` of `mindfort-agentic/app/trace/[external-id]/page.tsx`. -/
def extractLLMContent_mindfort (jsonParse : String → Option JSValue)
    (raw : JSValue) : Except Unit (Option JSValue) :=
  match raw with
  | .str s =>
    match jsonParse (normQuotes s) with
    | some v => extractParsed_mindfort v
    | none => .ok (some (.str s))
  | v => extractParsed_mindfort v

end Extract

namespace GraphDB

/-- Attributes `SET` on a `Finding` node. -/
structure FindingProps where
  scanner : String
  scan_id : String
  timestamp : String
deriving DecidableEq, Repr

/-- Attributes `SET` on a `Vulnerability` node. -/
structure VulnProps where
  title : String
  description : String
  severity : String
  vector : String
  owasp_id : String
deriving DecidableEq, Repr

/-- Attributes `SET` on an `Asset` node. -/
structure AssetProps where
  type : String
  service : String
deriving DecidableEq, Repr

/-- Explicit model of the Neo4j property graph the two scripts touch.
Nodes are association lists from their `MERGE` key to their attributes;
edges are lists of endpoint pairs.  `usesPackage` edges record their source
node as a `Nat` tag because the `MERGE (f)-[:USES_PACKAGE]->(p)` query of
the ingestion script leaves `f` unbound (a fresh query, so the variable `f`
of the first query is not in scope): on creation Neo4j materialises a fresh
anonymous node, numbered here by `nextAnon`. -/
structure Graph where
  findings : List (String × FindingProps)
  vulns : List (String × VulnProps)
  assets : List (Option String × AssetProps)
  packages : List (String × String)
  hasVuln : List (String × String)
  affects : List (String × Option String)
  usesPackage : List (Nat × String × String)
  nextAnon : Nat
deriving DecidableEq, Repr

/-- The graph before any ingestion. -/
def Graph.empty : Graph := ⟨[], [], [], [], [], [], [], 0⟩

/-- Cypher `MERGE (n \x7bkey\x7d) SET n.props = ...` on an association list:
the first node carrying the key has its attributes overwritten, otherwise a
new node is appended. -/
def upsertNode {κ π : Type} [DecidableEq κ] : List (κ × π) → κ → π → List (κ × π)
  | [], k, p => [(k, p)]
  | (k0, p0) :: rest, k, p =>
    if k0 = k then (k, p) :: rest else (k0, p0) :: upsertNode rest k p

/-- Cypher `MERGE` of a relationship (or of a property-free node): a no-op
when the pattern already matches, otherwise the element is created. -/
def mergeEdge {ε : Type} [DecidableEq ε] (l : List ε) (e : ε) : List ε :=
  if e ∈ l then l else l ++ [e]

/-- Number of nodes carrying a given key. -/
def countKey {κ π : Type} [DecidableEq κ] (l : List (κ × π)) (k : κ) : Nat :=
  (l.filter (fun e => decide (e.1 = k))).length

/-- Attributes of the first node carrying a given key. -/
def lookupKey {κ π : Type} [DecidableEq κ] : List (κ × π) → κ → Option π
  | [], _ => none
  | e :: rest, k => if e.1 = k then some e.2 else lookupKey rest k

/-- Number of `USES_PACKAGE` edges pointing at the package with the given
name/version key, from any source node. -/
def countPkgEdges (l : List (Nat × String × String)) (k : String × String) : Nat :=
  (l.filter (fun e => decide (e.2 = k))).length

/-- Number of occurrences of one edge (or property-free node) in a list. -/
def countEdge {ε : Type} [DecidableEq ε] (l : List ε) (e : ε) : Nat :=
  (l.filter (fun x => decide (x = e))).length

end GraphDB

namespace Ingest

open GraphDB

/-- The optional `package` descriptor of a finding record. -/
structure PackageRec where
  name : String
  version : String
deriving DecidableEq, Repr

/-- The nested `vulnerability` descriptor of a finding record. -/
structure VulnerabilityRec where
  cwe_id : String
  owasp_id : String
  title : String
  description : String
  severity : String
  vector : String
deriving DecidableEq, Repr

/-- The nested `asset` descriptor of a finding record.  `url`, `path`,
`image` and `service` may be absent, as the script reads them with `||`
fallbacks. -/
structure AssetRec where
  type : String
  url : Option String
  path : Option String
  image : Option String
  service : Option String
deriving DecidableEq, Repr

/-- One raw finding record of `findings_data.json` (field `package` is named
`pkg` here; the script itself destructures it as `package: pkg`). -/
structure FindingRec where
  finding_id : String
  scanner : String
  scan_id : String
  timestamp : String
  vulnerability : VulnerabilityRec
  asset : AssetRec
  pkg : Option PackageRec
deriving DecidableEq, Repr

/-- JavaScript truthiness of an optional string (`undefined` and `""` are
falsy). -/
def strTruthy : Option String → Bool
  | some s => !(s == "")
  | none => false

/-- JavaScript `a || b` on optional strings. -/
def jsOr (a b : Option String) : Option String :=
  if strTruthy a then a else b

/-- The Asset `MERGE` key: `url: asset.url || asset.path || asset.image`. -/
def assetKey (a : AssetRec) : Option String :=
  jsOr (jsOr a.url a.path) a.image

/-- The Asset service attribute: `service: asset.service || "unknown"`. -/
def serviceVal (a : AssetRec) : String :=
  (jsOr a.service (some "unknown")).getD "unknown"

/-- The first `tx.run` of the per-record transaction: upserts the Finding,
Vulnerability and Asset nodes and merges the `HAS_VULNERABILITY` and
`AFFECTS` edges. -/
def mainWrite (g : Graph) (r : FindingRec) : Graph :=
  let fid := r.finding_id
  let v := r.vulnerability
  let fprops : FindingProps := ⟨r.scanner, r.scan_id, r.timestamp⟩
  let vprops : VulnProps := ⟨v.title, v.description, v.severity, v.vector, v.owasp_id⟩
  let aprops : AssetProps := ⟨r.asset.type, serviceVal r.asset⟩
  let g1 := { g with findings := upsertNode g.findings fid fprops }
  let g2 := { g1 with vulns := upsertNode g1.vulns v.cwe_id vprops }
  let g3 := { g2 with assets := upsertNode g2.assets (assetKey r.asset) aprops }
  let g4 := { g3 with hasVuln := mergeEdge g3.hasVuln (fid, v.cwe_id) }
  { g4 with affects := mergeEdge g4.affects (fid, assetKey r.asset) }

/-- The `MERGE (f)-[:USES_PACKAGE]->(p)` step with `f` unbound (it belongs
to a separate query, so the `f` of the first query is out of scope): the
pattern matches when any node already has a `USES_PACKAGE` edge to the
package key, otherwise a fresh anonymous node (numbered `next`) and the
edge are created. -/
def pkgEdgeMerge (l : List (Nat × String × String)) (next : Nat)
    (k : String × String) : List (Nat × String × String) × Nat :=
  if l.any (fun e => decide (e.2 = k)) then (l, next)
  else (l ++ [(next, k.1, k.2)], next + 1)

/-- The second `tx.run`, issued only when a package descriptor is present:
`MERGE (p:Package \x7bname, version\x7d)` followed by
`MERGE (f)-[:USES_PACKAGE]->(p)`. -/
def pkgWrite (g : Graph) (r : FindingRec) : Graph :=
  match r.pkg with
  | none => g
  | some p =>
    let g1 := { g with packages := mergeEdge g.packages (p.name, p.version) }
    let m := pkgEdgeMerge g1.usesPackage g1.nextAnon (p.name, p.version)
    { g1 with usesPackage := m.1, nextAnon := m.2 }

/-- A committed per-record transaction: both `tx.run` bodies then
`tx.commit()`. -/
def ingestRecord (g : Graph) (r : FindingRec) : Graph :=
  pkgWrite (mainWrite g r) r

/-- Which failure, if any, the store raises while writing one record. -/
inductive FailMode
  | ok
  | failMain
  | failPkg
deriving DecidableEq, Repr

/-- One iteration of the `for (const finding of findings)` loop:
`beginTransaction`, the two `tx.run` calls and `tx.commit()` inside
`try`, with `tx.rollback()` in the `catch`.  A failure of either `tx.run`
rolls the whole transaction back, so the resulting graph is unchanged —
in particular a `failPkg` failure discards the already-applied main write. -/
def runRecordTx (g : Graph) (r : FindingRec) (m : FailMode) : Graph :=
  match m with
  | .ok => ingestRecord g r
  | .failMain => g
  | .failPkg =>
    let txLocal := mainWrite g r
    -- the second tx.run throws; tx.rollback() discards txLocal
    let _ := txLocal
    g

/-- The whole `ingestFindings` batch, with the failure mode of each record's
write supplied alongside the record. -/
def ingestFindings (g : Graph) (recs : List (FindingRec × FailMode)) : Graph :=
  List.foldl (fun g p => runRecordTx g p.1 p.2) g recs

/-- Key-uniqueness and edge-uniqueness of the graph, as guaranteed by the
store's uniqueness constraints and preserved by `MERGE`. -/
def wf (g : Graph) : Prop :=
  (g.findings.map Prod.fst).Nodup ∧ (g.vulns.map Prod.fst).Nodup ∧
  (g.assets.map Prod.fst).Nodup ∧ g.packages.Nodup ∧
  g.hasVuln.Nodup ∧ g.affects.Nodup ∧
  (g.usesPackage.map (fun e => e.2)).Nodup

instance (g : Graph) : Decidable (wf g) := by
  unfold wf; infer_instance

end Ingest

namespace Enrich

open GraphDB

/-- One row returned by the candidate-pair query of `enrichGraph`. -/
structure CandRow where
  id1 : String
  id2 : String
  vector : String
deriving DecidableEq, Repr

/-- The `vector` attribute of the vulnerability node with the given
`cwe_id`. -/
def vulnVector (g : Graph) (cwe : String) : Option String :=
  (g.vulns.lookup cwe).map VulnProps.vector

/-- The candidate-pair query:
`MATCH (f1)-[:HAS_VULNERABILITY]->(v1), (f2)-[:HAS_VULNERABILITY]->(v2)
WHERE f1.id < f2.id AND v1.vector = v2.vector
RETURN f1.id, f2.id, v1.vector LIMIT 5`.
The id comparison `f1.id < f2.id` is the lexicographic string order, written
on the character lists (equivalent to `String.lt` by
`String.lt_iff_toList_lt`) so that the definition evaluates inside the
kernel. -/
def candidateRows (g : Graph) : List CandRow :=
  ((g.hasVuln.flatMap (fun e1 => g.hasVuln.map (fun e2 => (e1, e2)))).filterMap
    (fun pr =>
      match vulnVector g pr.1.2, vulnVector g pr.2.2 with
      | some w1, some w2 =>
        if pr.1.1.data < pr.2.1.data ∧ w1 = w2 then some ⟨pr.1.1, pr.2.1, w1⟩ else none
      | _, _ => none)).take 5

/-- The single-quote character used inside the prompt text. -/
def sq : String := String.mk [Char.ofNat 39]

/-- The correlation prompt built for one candidate row. -/
def prompt (row : CandRow) : String :=
  "Given two findings:\n- " ++ row.id1 ++ "\n- " ++ row.id2 ++
    "\nBoth have a vulnerability vector of " ++ sq ++ row.vector ++ sq ++
    ". Do they likely share a root cause or attack pattern? " ++
    "Respond with either:\n\nYES - with a reason\nNO - and why not"

/-- ASCII lower-casing of one character, modelling `toLowerCase` on the
text the oracle returns. -/
def asciiLower (c : Char) : Char :=
  if 'A' ≤ c ∧ c ≤ 'Z' then Char.ofNat (c.toNat + 32) else c

/-- `reply.toLowerCase()`. -/
def lowerStr (s : String) : String :=
  String.mk (s.data.map asciiLower)

/-- Substring containment, modelling `String.prototype.includes`. -/
def containsSub (needle hay : List Char) : Bool :=
  hay.tails.any (fun t => needle.isPrefixOf t)

/-- The affirmative classification
`agentReply.toLowerCase().includes("yes")`. -/
def includesYes (reply : String) : Bool :=
  containsSub "yes".toList (lowerStr reply).toList

/-- One `RELATED_TO` edge write: endpoints and the `reason` attribute. -/
structure RelEdge where
  src : String
  dst : String
  reason : String
deriving DecidableEq, Repr

/-- Observable outcome of one `enrichGraph` run: the oracle prompts issued
in order, the `RELATED_TO` writes performed in order, and whether the
`catch` block fired. -/
structure EnrichResult where
  prompts : List String
  edges : List RelEdge
  errored : Bool
deriving DecidableEq, Repr

/-- The `for (const record of result.records)` loop of `enrichGraph`.
`oracle` models `callAgent` (its promise may reject), `writeOk` models
whether the `session.run` persisting the `RELATED_TO` merge succeeds.
The whole loop sits inside a single `try`; any rejection is caught by the
one `catch (error)` outside the loop, which therefore abandons every
remaining row. -/
def enrichPairs (oracle : String → Except String String)
    (writeOk : RelEdge → Bool) : List CandRow → EnrichResult
  | [] => ⟨[], [], false⟩
  | row :: rest =>
    let p := prompt row
    match oracle p with
    | .error _ => ⟨[p], [], true⟩
    | .ok reply =>
      if includesYes reply then
        let e : RelEdge := ⟨row.id1, row.id2, reply⟩
        if writeOk e then
          let res := enrichPairs oracle writeOk rest
          ⟨p :: res.prompts, e :: res.edges, res.errored⟩
        else ⟨[p], [], true⟩
      else
        let res := enrichPairs oracle writeOk rest
        ⟨p :: res.prompts, res.edges, res.errored⟩

/-- The whole `enrichGraph` run over a graph state. -/
def enrichGraph (g : Graph) (oracle : String → Except String String)
    (writeOk : RelEdge → Bool) : EnrichResult :=
  enrichPairs oracle writeOk (candidateRows g)

/-- Processing the given row fails: either the oracle call rejects, or the
verdict is affirmative and the edge write fails. -/
def failsAt (oracle : String → Except String String)
    (writeOk : RelEdge → Bool) (row : CandRow) : Prop :=
  match oracle (prompt row) with
  | .error _ => True
  | .ok reply => includesYes reply = true ∧ writeOk ⟨row.id1, row.id2, reply⟩ = false

end Enrich

namespace Ex

open GraphDB Ingest Enrich

/-- A concrete dependency finding record. -/
def record1 : FindingRec where
  finding_id := "f-001"
  scanner := "zap"
  scan_id := "scan-1"
  timestamp := "2024-01-01T00:00:00Z"
  vulnerability :=
    { cwe_id := "CWE-89", owasp_id := "A03", title := "SQLi"
      description := "injection", severity := "high", vector := "sql-injection" }
  asset :=
    { type := "web", url := some "http://a", path := none, image := none
      service := some "api" }
  pkg := some { name := "lodash", version := "4.17.21" }

/-- A second record sharing the vulnerability vector of `record1`. -/
def record2 : FindingRec :=
  { record1 with
    finding_id := "f-002"
    asset := { record1.asset with url := some "http://b" }
    pkg := none }

/-- A third record on an unrelated weakness class. -/
def record3 : FindingRec :=
  { record1 with
    finding_id := "f-003"
    vulnerability :=
      { cwe_id := "CWE-79", owasp_id := "A03", title := "XSS"
        description := "scripting", severity := "medium", vector := "xss" }
    asset := { record1.asset with url := some "http://c" }
    pkg := none }

/-- The graph after ingesting `record1` and `record2`. -/
def graph2 : Graph :=
  ingestRecord (ingestRecord Graph.empty record1) record2

/-- The unique candidate row of `graph2`. -/
def row1 : CandRow := ⟨"f-001", "f-002", "sql-injection"⟩

/-- A second, disjoint candidate row. -/
def row2 : CandRow := ⟨"f-003", "f-004", "xss"⟩

/-- An oracle whose call rejects on the prompt of `row1` and answers an
affirmative verdict everywhere else. -/
def oracle1 : String → Except String String := fun p =>
  if p = prompt row1 then .error "network error" else .ok "YES - shared root cause"

/-- An oracle that always answers the given reply. -/
def constOracle (reply : String) : String → Except String String :=
  fun _ => .ok reply

/-- A concrete step decoder for the stream examples: it accepts exactly the
two JSON payloads used below, mirroring that `JSON.parse` succeeds on each
full object and fails on any strict prefix or suffix of one. -/
def parse1 : Chat.Chars → Option Chat.StepObj := fun l =>
  if l = "\x7b\"step\":\"Thought\",\"content\":\"checking\"\x7d".toList then
    some { step := "Thought".toList, content := "checking".toList
           trace_id := some "t-1".toList }
  else if l = "\x7b\"step\":\"Final Answer\",\"content\":\"SQL injection confirmed\"\x7d".toList then
    some { step := "Final Answer".toList, content := "SQL injection confirmed".toList
           trace_id := some "t-2".toList }
  else none

/-- The two prefixed event lines for `parse1`, as one contiguous text. -/
def streamText : Chat.Chars :=
  ("data: \x7b\"step\":\"Thought\",\"content\":\"checking\"\x7d\n" ++
   "data: \x7b\"step\":\"Final Answer\",\"content\":\"SQL injection confirmed\"\x7d\n").toList

/-- The first event line of `streamText` cut inside its JSON object, just
after the event prefix. -/
def chunkA : Chat.Chars := "data: \x7b\"step\"".toList

/-- The remainder of the first event line of `streamText`. -/
def chunkB : Chat.Chars := ":\"Thought\",\"content\":\"checking\"\x7d\n".toList

end Ex

section Theorems

open GraphDB Ingest Enrich Chat Extract

/-- Unfolding of one batch step of `ingestFindings`. -/
theorem ingestFindings_cons (g : Graph) (p : FindingRec × FailMode)
    (rest : List (FindingRec × FailMode)) :
    ingestFindings g (p :: rest) = ingestFindings (runRecordTx g p.1 p.2) rest := rfl

/-- C6: ingestion is per-record atomic and batch-resilient.  First conjunct:
for every batch, the resulting graph is exactly the fold of `ingestRecord`
over the records whose write succeeds — a failing record (whether its first
or its second query throws) contributes nothing (its partial writes are
rolled back) and every other record in the batch is fully persisted.
Second conjunct: the 3-record instance in which the 2nd record's write
fails; the batch completes (the fold is total — the `catch` confines the
exception to the record) with the 1st and 3rd records fully persisted. -/
theorem C6_batch_resilience :
    (∀ (g : Graph) (recs : List (FindingRec × FailMode)),
      ingestFindings g recs =
        List.foldl ingestRecord g
          (recs.filterMap (fun p => if p.2 = FailMode.ok then some p.1 else none))) ∧
    (∀ (g : Graph) (r1 r2 r3 : FindingRec) (m : FailMode), m ≠ FailMode.ok →
      ingestFindings g [(r1, .ok), (r2, m), (r3, .ok)] =
        ingestRecord (ingestRecord g r1) r3) := by
  constructor
  · intro g recs
    induction recs generalizing g with
    | nil => rfl
    | cons p rest ih =>
      obtain ⟨r, m⟩ := p
      rw [ingestFindings_cons]
      cases m with
      | ok => simpa [runRecordTx] using ih (ingestRecord g r)
      | failMain => simpa [runRecordTx] using ih g
      | failPkg => simpa [runRecordTx] using ih g
  · intro g r1 r2 r3 m hm
    cases m with
    | ok => exact absurd rfl hm
    | failMain => rfl
    | failPkg => rfl

/-- Witness for C6 at a concrete 3-record batch whose 2nd record fails. -/
theorem C6_batch_resilience_witness :
    ingestFindings Graph.empty
        [(Ex.record1, .ok), (Ex.record2, .failPkg), (Ex.record3, .ok)] =
      ingestRecord (ingestRecord Graph.empty Ex.record1) Ex.record3 :=
  C6_batch_resilience.2 Graph.empty Ex.record1 Ex.record2 Ex.record3 .failPkg
    (by decide)

/-- C1 (amended): in `enrichGraph` the single `try`/`catch` wraps the whole
loop over candidate pairs, so when the oracle call or the store write for a
pair fails, that pair and every subsequent pair of the batch are abandoned:
no further prompt is issued and no further edge is written; the run records
the caught error and terminates normally. -/
theorem C1_pair_failure_aborts_batch (oracle : String → Except String String)
    (writeOk : RelEdge → Bool) (row : CandRow) (rest : List CandRow)
    (h : failsAt oracle writeOk row) :
    enrichPairs oracle writeOk (row :: rest) = ⟨[prompt row], [], true⟩ := by
  unfold failsAt at h
  unfold enrichPairs
  cases ho : oracle (prompt row) with
  | error e => simp [ho]
  | ok reply =>
    rw [ho] at h
    obtain ⟨hy, hw⟩ := h
    simp [ho, hy, hw]

/-- Witness for C1 at a concrete two-pair batch whose first oracle call
rejects. -/
theorem C1_pair_failure_aborts_batch_witness :
    enrichPairs Ex.oracle1 (fun _ => true) [Ex.row1, Ex.row2] =
      ⟨[prompt Ex.row1], [], true⟩ :=
  C1_pair_failure_aborts_batch Ex.oracle1 (fun _ => true) Ex.row1 [Ex.row2]
    (by simp [failsAt, Ex.oracle1])

/-- Counterexample to C1 as stated: with two candidate pairs where the first
pair's oracle call fails, the second pair is never processed — its prompt is
not issued and no edge is written for it — although processing it alone
would succeed and produce an edge. -/
theorem C1_counterexample :
    (enrichPairs Ex.oracle1 (fun _ => true) [Ex.row1, Ex.row2]).prompts =
        [prompt Ex.row1] ∧
      prompt Ex.row2 ∉
        (enrichPairs Ex.oracle1 (fun _ => true) [Ex.row1, Ex.row2]).prompts ∧
      (enrichPairs Ex.oracle1 (fun _ => true) [Ex.row1, Ex.row2]).edges = [] ∧
      (enrichPairs Ex.oracle1 (fun _ => true) [Ex.row2]).edges =
        [⟨"f-003", "f-004", "YES - shared root cause"⟩] := by
  set_option maxRecDepth 4000 in
  refine ⟨?_, ?_, ?_, ?_⟩ <;> decide

/-- Every row the candidate query returns comes from two `HAS_VULNERABILITY`
edges whose vulnerability nodes carry the row's shared vector, with the two
finding ids in strictly ascending order. -/
theorem mem_candidateRows {g : Graph} {row : CandRow}
    (h : row ∈ candidateRows g) :
    ∃ c1 c2 : String,
      (row.id1, c1) ∈ g.hasVuln ∧ (row.id2, c2) ∈ g.hasVuln ∧
      vulnVector g c1 = some row.vector ∧ vulnVector g c2 = some row.vector ∧
      row.id1 < row.id2 := by
  have h' := List.take_subset 5 _ h
  obtain ⟨pr, hpr, hf⟩ := List.mem_filterMap.mp h'
  obtain ⟨e1, he1, hmap⟩ := List.mem_flatMap.mp hpr
  obtain ⟨e2, he2, hpr2⟩ := List.mem_map.mp hmap
  subst hpr2
  rcases hv1 : vulnVector g e1.2 with _ | w1 <;>
    rcases hv2 : vulnVector g e2.2 with _ | w2 <;>
      simp only [hv1, hv2] at hf <;>
        try exact Option.noConfusion hf
  split at hf
  · rename_i hcond
    obtain ⟨hlt, hw⟩ := hcond
    obtain rfl := (Option.some.inj hf).symm
    exact ⟨e1.2, e2.2, by simpa using he1, by simpa using he2,
      hv1, by rw [hv2, hw], String.lt_iff_toList_lt.mpr hlt⟩
  · exact absurd hf (by simp)

/-- C7: candidate selection is canonical and bounded — at most 5 rows per
run; every selected row pairs two distinct findings carrying the same
vulnerability vector, ordered with the strictly smaller id first; and the
mirrored pair of a selected row is never selected. -/
theorem C7_candidate_selection (g : Graph) :
    (candidateRows g).length ≤ 5 ∧
    (∀ row ∈ candidateRows g,
      row.id1 ≠ row.id2 ∧ row.id1 < row.id2 ∧
      (∃ c1 c2 : String,
        (row.id1, c1) ∈ g.hasVuln ∧ (row.id2, c2) ∈ g.hasVuln ∧
        vulnVector g c1 = some row.vector ∧ vulnVector g c2 = some row.vector) ∧
      (∀ row' ∈ candidateRows g, ¬(row'.id1 = row.id2 ∧ row'.id2 = row.id1))) := by
  constructor
  · unfold candidateRows
    exact List.length_take_le 5 _
  · intro row hrow
    obtain ⟨c1, c2, h1, h2, hv1, hv2, hlt⟩ := mem_candidateRows hrow
    refine ⟨ne_of_lt hlt, hlt, ⟨c1, c2, h1, h2, hv1, hv2⟩, ?_⟩
    intro row' hrow' ⟨hb1, hb2⟩
    obtain ⟨_, _, _, _, _, _, hlt'⟩ := mem_candidateRows hrow'
    rw [hb1, hb2] at hlt'
    exact absurd hlt (not_lt_of_lt hlt')

/-- Witness for C7 on the concrete two-finding graph `Ex.graph2`, whose only
candidate row is `("f-001", "f-002", "sql-injection")`. -/
theorem C7_candidate_selection_witness :
    Ex.row1 ∈ candidateRows Ex.graph2 ∧
      Ex.row1.id1 < Ex.row1.id2 ∧
      (∀ row' ∈ candidateRows Ex.graph2,
        ¬(row'.id1 = Ex.row1.id2 ∧ row'.id2 = Ex.row1.id1)) :=
  have heq : candidateRows Ex.graph2 = [Ex.row1] := by decide
  have hmem : Ex.row1 ∈ candidateRows Ex.graph2 := by
    rw [heq]; exact List.mem_singleton.mpr rfl
  ⟨hmem, ((C7_candidate_selection Ex.graph2).2 Ex.row1 hmem).2.1,
    ((C7_candidate_selection Ex.graph2).2 Ex.row1 hmem).2.2.2⟩

/-- C8: verdict classification and edge persistence.  First conjunct: when
the oracle's reply for a pair contains "yes" case-insensitively and the
store write succeeds, exactly the edge from the row's first to its second
finding, carrying the full reply verbatim as `reason`, is prepended to the
run's writes; when the reply does not contain "yes", the pair contributes
no edge.  Second conjunct: every candidate row is ordered with the lower id
first, so the persisted edge runs from the lower-id finding to the
higher-id one. -/
theorem C8_verdict_edge :
    (∀ (oracle : String → Except String String) (writeOk : RelEdge → Bool)
        (row : CandRow) (rest : List CandRow) (reply : String),
      oracle (prompt row) = .ok reply →
      ((includesYes reply = true → writeOk ⟨row.id1, row.id2, reply⟩ = true →
        (enrichPairs oracle writeOk (row :: rest)).edges =
          ⟨row.id1, row.id2, reply⟩ :: (enrichPairs oracle writeOk rest).edges) ∧
       (includesYes reply = false →
        (enrichPairs oracle writeOk (row :: rest)).edges =
          (enrichPairs oracle writeOk rest).edges))) ∧
    (∀ (g : Graph) (row : CandRow), row ∈ candidateRows g → row.id1 < row.id2) := by
  constructor
  · intro oracle writeOk row rest reply hok
    constructor
    · intro hy hw
      simp [enrichPairs, hok, hy, hw]
    · intro hn
      simp [enrichPairs, hok, hn]
  · intro g row hrow
    obtain ⟨_, _, _, _, _, _, hlt⟩ := mem_candidateRows hrow
    exact hlt

/-- Witness for C8: the reply "Yes, they share a root cause" persists the
`RELATED_TO` edge with the verbatim reason; "No relation found" persists
nothing. -/
theorem C8_verdict_edge_witness :
    (enrichPairs (Ex.constOracle "Yes, they share a root cause") (fun _ => true)
        [Ex.row1]).edges = [⟨"f-001", "f-002", "Yes, they share a root cause"⟩] ∧
      (enrichPairs (Ex.constOracle "No relation found") (fun _ => true)
        [Ex.row1]).edges = [] ∧
      Ex.row1.id1 < Ex.row1.id2 := by
  have heq : candidateRows Ex.graph2 = [Ex.row1] := by decide
  refine ⟨?_, ?_, C8_verdict_edge.2 Ex.graph2 Ex.row1 (by
    rw [heq]; exact List.mem_singleton.mpr rfl)⟩
  · have h := (C8_verdict_edge.1 (Ex.constOracle "Yes, they share a root cause")
      (fun _ => true) Ex.row1 [] "Yes, they share a root cause" rfl).1
      (by decide) rfl
    simpa [enrichPairs] using h
  · have h := (C8_verdict_edge.1 (Ex.constOracle "No relation found")
      (fun _ => true) Ex.row1 [] "No relation found" rfl).2 (by decide)
    simpa [enrichPairs] using h

/-- The `lastTraceId` of a non-empty step list is the `trace_id` of its last
element. -/
theorem lastTraceId_of_ne_nil {steps : List StepObj} (h : steps ≠ []) :
    lastTraceId steps = (steps.getLast h).trace_id := by
  unfold lastTraceId
  rw [List.getLast?_eq_getLast steps h]

/-- C9: when the stream closes normally after the reconstructor emitted a
non-empty step sequence, `sendMessage` appends exactly one agent message
whose content is the steps' `"<step>: <content>"` strings joined by the
blank-line separator `"\n\n"` and whose reference trace identifier is the
`trace_id` of the last emitted step. -/
theorem C9_aggregate_message (parse : Chars → Option StepObj) (st : ChatState)
    (chunks : List Chars) (h1 : jsTrim st.input ≠ [])
    (h2 : (readChunks parse chunks).2 ≠ []) :
    sendMessage parse st (.response (some ⟨chunks, .done⟩)) =
      { messages := st.messages ++ [{ role := .user, content := st.input }] ++
          [{ role := .agent
             content := List.intercalate "\n\n".toList
               ((readChunks parse chunks).2.map
                 (fun s => s.step ++ ": ".toList ++ s.content))
             external_trace_id := ((readChunks parse chunks).2.getLast h2).trace_id }]
        input := []
        loading := false
        agentSteps := [] } := by
  simp only [sendMessage, if_neg h1, aggContent, lastTraceId_of_ne_nil h2]

/-- Witness for C9: the two-step stream of the specification example yields
the aggregate `"Thought: checking\n\nFinal Answer: SQL injection confirmed"`
carrying the last step's trace id. -/
theorem C9_aggregate_message_witness :
    sendMessage Ex.parse1 ⟨[], "hi".toList, false, []⟩
        (.response (some ⟨[Ex.streamText], .done⟩)) =
      { messages := [{ role := .user, content := "hi".toList },
          { role := .agent
            content :=
              "Thought: checking\n\nFinal Answer: SQL injection confirmed".toList
            external_trace_id := some "t-2".toList }]
        input := []
        loading := false
        agentSteps := [] } := by
  have h := C9_aggregate_message Ex.parse1 ⟨[], "hi".toList, false, []⟩
    [Ex.streamText] (by decide) (by decide)
  rw [h]
  decide

/-- C10: when the stream closes normally with no step event ever parsed,
`sendMessage` still appends one agent message, with empty content and no
reference trace identifier. -/
theorem C10_empty_aggregate (parse : Chars → Option StepObj) (st : ChatState)
    (chunks : List Chars) (h1 : jsTrim st.input ≠ [])
    (h2 : (readChunks parse chunks).2 = []) :
    sendMessage parse st (.response (some ⟨chunks, .done⟩)) =
      { messages := st.messages ++ [{ role := .user, content := st.input }] ++
          [{ role := .agent, content := [], external_trace_id := none }]
        input := []
        loading := false
        agentSteps := [] } := by
  simp only [sendMessage, if_neg h1, h2, aggContent, lastTraceId,
    List.map_nil, List.getLast?_nil]
  rfl

/-- Witness for C10 on an empty chunk list. -/
theorem C10_empty_aggregate_witness :
    sendMessage Ex.parse1 ⟨[], "hi".toList, false, []⟩
        (.response (some ⟨[], .done⟩)) =
      { messages := [{ role := .user, content := "hi".toList },
          { role := .agent, content := [], external_trace_id := none }]
        input := []
        loading := false
        agentSteps := [] } := by
  have h := C10_empty_aggregate Ex.parse1 ⟨[], "hi".toList, false, []⟩
    [] (by decide) (by decide)
  rw [h]
  decide

/-- C4 (amended): on a `fetch`-level failure (promise rejection or missing
body) the loading flag is cleared and no partial aggregated message is
appended; on a mid-stream chunk-read rejection no partial aggregated message
is appended either, but the loading flag is NOT cleared — the rejection of
`reader.read()` inside the `read` loop has no handler, so
`setLoading(false)` never runs there. -/
theorem C4_transport_failure (parse : Chars → Option StepObj) (st : ChatState)
    (h1 : jsTrim st.input ≠ []) :
    (sendMessage parse st .fetchReject =
      { messages := st.messages ++ [{ role := .user, content := st.input }]
        input := [], loading := false, agentSteps := [] }) ∧
    (sendMessage parse st (.response none) =
      { messages := st.messages ++ [{ role := .user, content := st.input }]
        input := [], loading := false, agentSteps := [] }) ∧
    (∀ chunks, (sendMessage parse st (.response (some ⟨chunks, .readError⟩))).loading = true ∧
      (sendMessage parse st (.response (some ⟨chunks, .readError⟩))).messages =
        st.messages ++ [{ role := .user, content := st.input }]) := by
  refine ⟨?_, ?_, fun chunks => ⟨?_, ?_⟩⟩ <;>
    simp [sendMessage, if_neg h1]

/-- Witness for C4 at a concrete state and failing stream. -/
theorem C4_transport_failure_witness :
    sendMessage Ex.parse1 ⟨[], "hi".toList, false, []⟩ .fetchReject =
        { messages := [{ role := .user, content := "hi".toList }]
          input := [], loading := false, agentSteps := [] } ∧
      (sendMessage Ex.parse1 ⟨[], "hi".toList, false, []⟩
        (.response (some ⟨["data: x".toList], .readError⟩))).loading = true :=
  ⟨(C4_transport_failure Ex.parse1 ⟨[], "hi".toList, false, []⟩ (by decide)).1,
   ((C4_transport_failure Ex.parse1 ⟨[], "hi".toList, false, []⟩ (by decide)).2.2
     ["data: x".toList]).1⟩

section UpsertLemmas

variable {κ π : Type} [DecidableEq κ]

/-- After an upsert, looking the key up returns the freshly set
attributes. -/
theorem lookupKey_upsertNode (l : List (κ × π)) (k : κ) (p : π) :
    lookupKey (upsertNode l k p) k = some p := by
  induction l with
  | nil => simp [upsertNode, lookupKey]
  | cons e rest ih =>
    obtain ⟨k0, p0⟩ := e
    by_cases h : k0 = k
    · simp [upsertNode, h, lookupKey]
    · simp [upsertNode, h, lookupKey, ih]

/-- The keys after an upsert are the old keys plus the upserted one. -/
theorem mem_keys_upsertNode (l : List (κ × π)) (k k' : κ) (p : π) :
    k' ∈ (upsertNode l k p).map Prod.fst ↔ k' ∈ l.map Prod.fst ∨ k' = k := by
  induction l with
  | nil => simp [upsertNode]
  | cons e rest ih =>
    obtain ⟨k0, p0⟩ := e
    by_cases h : k0 = k
    · subst h
      simp [upsertNode]
      tauto
    · simp [upsertNode, h, ih]
      tauto

/-- Upserting preserves key uniqueness. -/
theorem keys_upsertNode_nodup (l : List (κ × π)) (k : κ) (p : π)
    (h : (l.map Prod.fst).Nodup) : ((upsertNode l k p).map Prod.fst).Nodup := by
  induction l with
  | nil => simp [upsertNode]
  | cons e rest ih =>
    obtain ⟨k0, p0⟩ := e
    simp only [List.map_cons, List.nodup_cons] at h
    obtain ⟨hk0, hrest⟩ := h
    by_cases hek : k0 = k
    · subst hek
      simp [upsertNode, List.nodup_cons, hk0, hrest]
    · simp only [upsertNode, if_neg hek, List.map_cons, List.nodup_cons]
      refine ⟨?_, ih hrest⟩
      rw [mem_keys_upsertNode]
      rintro (hc | hc)
      · exact hk0 hc
      · exact hek hc

/-- A key that occurs nowhere is counted zero times. -/
theorem countKey_eq_zero {l : List (κ × π)} {k : κ}
    (h : k ∉ l.map Prod.fst) : countKey l k = 0 := by
  induction l with
  | nil => rfl
  | cons e rest ih =>
    simp only [List.map_cons, List.mem_cons, not_or] at h
    have he : ¬(e.1 = k) := fun hc => h.1 hc.symm
    have ih2 := ih h.2
    simp only [countKey, List.filter_cons, decide_eq_true_eq, if_neg he] at ih2 ⊢
    exact ih2

/-- After an upsert into a key-unique list, the key is carried by exactly
one node. -/
theorem countKey_upsertNode (l : List (κ × π)) (k : κ) (p : π)
    (h : (l.map Prod.fst).Nodup) : countKey (upsertNode l k p) k = 1 := by
  induction l with
  | nil => simp [upsertNode, countKey]
  | cons e rest ih =>
    obtain ⟨k0, p0⟩ := e
    simp only [List.map_cons, List.nodup_cons] at h
    obtain ⟨hk0, hrest⟩ := h
    by_cases hek : k0 = k
    · subst hek
      have h0 : countKey rest k0 = 0 := countKey_eq_zero hk0
      simp [upsertNode, countKey, List.filter_cons] at h0 ⊢
      simpa [countKey] using h0
    · simp [upsertNode, hek, countKey, List.filter_cons]
      simpa [countKey] using ih hrest

end UpsertLemmas

section MergeLemmas

variable {ε : Type} [DecidableEq ε]

/-- The merged element is present after the merge. -/
theorem mem_mergeEdge_self (l : List ε) (e : ε) : e ∈ mergeEdge l e := by
  unfold mergeEdge
  split
  · assumption
  · simp

/-- Merging an already-present element is a no-op. -/
theorem mergeEdge_of_mem {l : List ε} {e : ε} (h : e ∈ l) : mergeEdge l e = l :=
  if_pos h

/-- An absent edge is counted zero times. -/
theorem countEdge_eq_zero {l : List ε} {e : ε} (h : e ∉ l) :
    countEdge l e = 0 := by
  induction l with
  | nil => rfl
  | cons x rest ih =>
    simp only [List.mem_cons, not_or] at h
    have hx : ¬(x = e) := fun hc => h.1 hc.symm
    have ih2 := ih h.2
    simp only [countEdge, List.filter_cons, decide_eq_true_eq, if_neg hx] at ih2 ⊢
    exact ih2

/-- In a duplicate-free list a present edge is counted exactly once. -/
theorem countEdge_eq_one_of_mem {l : List ε} {e : ε} (hd : l.Nodup)
    (hm : e ∈ l) : countEdge l e = 1 := by
  induction l with
  | nil => cases hm
  | cons x rest ih =>
    simp only [List.nodup_cons] at hd
    rcases List.mem_cons.mp hm with hx | hrest
    · subst hx
      have h0 := countEdge_eq_zero hd.1
      simp only [countEdge, List.filter_cons, decide_eq_true_eq, if_pos rfl,
        List.length_cons] at h0 ⊢
      simpa [countEdge] using h0
    · have hx : ¬(x = e) := fun hc => hd.1 (hc ▸ hrest)
      have ih2 := ih hd.2 hrest
      simp only [countEdge, List.filter_cons, decide_eq_true_eq, if_neg hx] at ih2 ⊢
      exact ih2

/-- After merging into a duplicate-free edge list, the edge occurs exactly
once. -/
theorem count_mergeEdge_self (l : List ε) (e : ε) (h : l.Nodup) :
    countEdge (mergeEdge l e) e = 1 := by
  unfold mergeEdge
  split
  · rename_i hmem
    exact countEdge_eq_one_of_mem h hmem
  · rename_i hmem
    refine countEdge_eq_one_of_mem ?_ (by simp)
    simp [List.nodup_append, h, hmem]

/-- Merging preserves freedom from duplicates. -/
theorem nodup_mergeEdge (l : List ε) (e : ε) (h : l.Nodup) :
    (mergeEdge l e).Nodup := by
  unfold mergeEdge
  split
  · exact h
  · rename_i hmem
    simp [List.nodup_append, h, hmem]

end MergeLemmas

section PkgMergeLemmas

/-- A package key no edge points at is counted zero times. -/
theorem countPkgEdges_eq_zero {l : List (Nat × String × String)}
    {k : String × String} (h : k ∉ l.map (fun e => e.2)) :
    countPkgEdges l k = 0 := by
  induction l with
  | nil => rfl
  | cons e rest ih =>
    simp only [List.map_cons, List.mem_cons, not_or] at h
    have he : ¬(e.2 = k) := fun hc => h.1 hc.symm
    have ih2 := ih h.2
    simp only [countPkgEdges, List.filter_cons, decide_eq_true_eq, if_neg he] at ih2 ⊢
    exact ih2

/-- With duplicate-free package keys, a key some edge points at is counted
exactly once. -/
theorem countPkgEdges_eq_one_of_mem {l : List (Nat × String × String)}
    {k : String × String} (hd : (l.map (fun e => e.2)).Nodup)
    (hm : k ∈ l.map (fun e => e.2)) : countPkgEdges l k = 1 := by
  induction l with
  | nil => cases hm
  | cons e rest ih =>
    simp only [List.map_cons, List.nodup_cons] at hd
    rcases List.mem_cons.mp hm with hx | hrest
    · have h0 : countPkgEdges rest k = 0 := countPkgEdges_eq_zero (hx ▸ hd.1)
      simp only [countPkgEdges, List.filter_cons, decide_eq_true_eq, if_pos hx.symm,
        List.length_cons] at h0 ⊢
      simpa [countPkgEdges] using h0
    · have he : ¬(e.2 = k) := fun hc => hd.1 (hc ▸ hrest)
      have ih2 := ih hd.2 hrest
      simp only [countPkgEdges, List.filter_cons, decide_eq_true_eq, if_neg he] at ih2 ⊢
      exact ih2

/-- After the unbound-source `USES_PACKAGE` merge into a list whose package
keys are duplicate-free, exactly one edge points at the key. -/
theorem countPkgEdges_pkgEdgeMerge (l : List (Nat × String × String))
    (next : Nat) (k : String × String)
    (h : (l.map (fun e => e.2)).Nodup) :
    countPkgEdges (pkgEdgeMerge l next k).1 k = 1 := by
  unfold pkgEdgeMerge
  split
  · rename_i hany
    obtain ⟨e, he, hek⟩ := List.any_eq_true.mp hany
    exact countPkgEdges_eq_one_of_mem h
      (List.mem_map.mpr ⟨e, he, of_decide_eq_true hek⟩)
  · rename_i hany
    have hnot : k ∉ l.map (fun e => e.2) := by
      intro hmem
      obtain ⟨e, he, hek⟩ := List.mem_map.mp hmem
      exact hany (List.any_eq_true.mpr ⟨e, he, decide_eq_true hek⟩)
    refine countPkgEdges_eq_one_of_mem ?_ (by simp)
    simp [List.nodup_append, h, hnot]

/-- The merge preserves key uniqueness of the `USES_PACKAGE` edges. -/
theorem nodup_pkgEdgeMerge (l : List (Nat × String × String)) (next : Nat)
    (k : String × String) (h : (l.map (fun e => e.2)).Nodup) :
    ((pkgEdgeMerge l next k).1.map (fun e => e.2)).Nodup := by
  unfold pkgEdgeMerge
  split
  · exact h
  · rename_i hany
    have hnot : k ∉ l.map (fun e => e.2) := by
      intro hmem
      obtain ⟨e, he, hek⟩ := List.mem_map.mp hmem
      exact hany (List.any_eq_true.mpr ⟨e, he, decide_eq_true hek⟩)
    simp [List.nodup_append, h, hnot]

/-- After a first merge, the pattern matches, so a second merge is a
no-op. -/
theorem pkgEdgeMerge_idem (l : List (Nat × String × String)) (n1 n2 : Nat)
    (k : String × String) :
    pkgEdgeMerge (pkgEdgeMerge l n1 k).1 n2 k = ((pkgEdgeMerge l n1 k).1, n2) := by
  unfold pkgEdgeMerge
  split
  · rename_i hany
    simp [hany]
  · rename_i hany
    have : ((l ++ [(n1, k.1, k.2)]).any (fun e => decide (e.2 = k))) = true :=
      List.any_eq_true.mpr ⟨(n1, k.1, k.2), by simp, by simp⟩
    simp [this]

end PkgMergeLemmas

section IngestComponents

/-- `ingestRecord` updates the Finding nodes by the `MERGE`/`SET` upsert. -/
theorem ingestRecord_findings (g : Graph) (r : FindingRec) :
    (ingestRecord g r).findings =
      upsertNode g.findings r.finding_id ⟨r.scanner, r.scan_id, r.timestamp⟩ := by
  cases hp : r.pkg <;> simp [ingestRecord, mainWrite, pkgWrite, hp]

/-- `ingestRecord` updates the Vulnerability nodes by the upsert. -/
theorem ingestRecord_vulns (g : Graph) (r : FindingRec) :
    (ingestRecord g r).vulns =
      upsertNode g.vulns r.vulnerability.cwe_id
        ⟨r.vulnerability.title, r.vulnerability.description,
         r.vulnerability.severity, r.vulnerability.vector,
         r.vulnerability.owasp_id⟩ := by
  cases hp : r.pkg <;> simp [ingestRecord, mainWrite, pkgWrite, hp]

/-- `ingestRecord` updates the Asset nodes by the upsert. -/
theorem ingestRecord_assets (g : Graph) (r : FindingRec) :
    (ingestRecord g r).assets =
      upsertNode g.assets (assetKey r.asset) ⟨r.asset.type, serviceVal r.asset⟩ := by
  cases hp : r.pkg <;> simp [ingestRecord, mainWrite, pkgWrite, hp]

/-- `ingestRecord` merges the `HAS_VULNERABILITY` edge. -/
theorem ingestRecord_hasVuln (g : Graph) (r : FindingRec) :
    (ingestRecord g r).hasVuln =
      mergeEdge g.hasVuln (r.finding_id, r.vulnerability.cwe_id) := by
  cases hp : r.pkg <;> simp [ingestRecord, mainWrite, pkgWrite, hp]

/-- `ingestRecord` merges the `AFFECTS` edge. -/
theorem ingestRecord_affects (g : Graph) (r : FindingRec) :
    (ingestRecord g r).affects =
      mergeEdge g.affects (r.finding_id, assetKey r.asset) := by
  cases hp : r.pkg <;> simp [ingestRecord, mainWrite, pkgWrite, hp]

/-- `ingestRecord` merges the Package node when a package is present. -/
theorem ingestRecord_packages (g : Graph) (r : FindingRec) :
    (ingestRecord g r).packages =
      match r.pkg with
      | none => g.packages
      | some p => mergeEdge g.packages (p.name, p.version) := by
  cases hp : r.pkg <;> simp [ingestRecord, mainWrite, pkgWrite, hp]

/-- `ingestRecord` merges the `USES_PACKAGE` edge when a package is
present. -/
theorem ingestRecord_usesPackage (g : Graph) (r : FindingRec) :
    (ingestRecord g r).usesPackage =
      match r.pkg with
      | none => g.usesPackage
      | some p => (pkgEdgeMerge g.usesPackage g.nextAnon (p.name, p.version)).1 := by
  cases hp : r.pkg <;> simp [ingestRecord, mainWrite, pkgWrite, hp]

/-- `ingestRecord` preserves the uniqueness invariants. -/
theorem wf_ingestRecord (g : Graph) (r : FindingRec) (h : wf g) :
    wf (ingestRecord g r) := by
  obtain ⟨hf, hv, ha, hp, hhv, haf, hup⟩ := h
  refine ⟨?_, ?_, ?_, ?_, ?_, ?_, ?_⟩
  · rw [ingestRecord_findings]
    exact keys_upsertNode_nodup _ _ _ hf
  · rw [ingestRecord_vulns]
    exact keys_upsertNode_nodup _ _ _ hv
  · rw [ingestRecord_assets]
    exact keys_upsertNode_nodup _ _ _ ha
  · rw [ingestRecord_packages]
    cases r.pkg with
    | none => exact hp
    | some p => exact nodup_mergeEdge _ _ hp
  · rw [ingestRecord_hasVuln]
    exact nodup_mergeEdge _ _ hhv
  · rw [ingestRecord_affects]
    exact nodup_mergeEdge _ _ haf
  · rw [ingestRecord_usesPackage]
    cases r.pkg with
    | none => exact hup
    | some p => exact nodup_pkgEdgeMerge _ _ _ hup

end IngestComponents

/-- C5: ingestion is idempotent.  Starting from any graph satisfying the
store's uniqueness invariants, ingesting the same record twice leaves
exactly one Finding, one Vulnerability, one Asset and (when a package is
present) one Package node for the record's keys, each carrying the most
recently ingested attribute values, and exactly one `HAS_VULNERABILITY`,
one `AFFECTS` and (when a package is present) one `USES_PACKAGE` edge for
the record's endpoints — no duplicates. -/
theorem C5_idempotent_ingestion (g : Graph) (r : FindingRec) (hwf : wf g) :
    countKey (ingestRecord (ingestRecord g r) r).findings r.finding_id = 1 ∧
    lookupKey (ingestRecord (ingestRecord g r) r).findings r.finding_id =
      some ⟨r.scanner, r.scan_id, r.timestamp⟩ ∧
    countKey (ingestRecord (ingestRecord g r) r).vulns r.vulnerability.cwe_id = 1 ∧
    lookupKey (ingestRecord (ingestRecord g r) r).vulns r.vulnerability.cwe_id =
      some ⟨r.vulnerability.title, r.vulnerability.description,
        r.vulnerability.severity, r.vulnerability.vector, r.vulnerability.owasp_id⟩ ∧
    countKey (ingestRecord (ingestRecord g r) r).assets (assetKey r.asset) = 1 ∧
    lookupKey (ingestRecord (ingestRecord g r) r).assets (assetKey r.asset) =
      some ⟨r.asset.type, serviceVal r.asset⟩ ∧
    countEdge (ingestRecord (ingestRecord g r) r).hasVuln
      (r.finding_id, r.vulnerability.cwe_id) = 1 ∧
    countEdge (ingestRecord (ingestRecord g r) r).affects
      (r.finding_id, assetKey r.asset) = 1 ∧
    (∀ p, r.pkg = some p →
      countEdge (ingestRecord (ingestRecord g r) r).packages (p.name, p.version) = 1 ∧
      countPkgEdges (ingestRecord (ingestRecord g r) r).usesPackage
        (p.name, p.version) = 1) := by
  obtain ⟨hf, hv, ha, hp, hhv, haf, hup⟩ := hwf
  have hf1 := keys_upsertNode_nodup g.findings r.finding_id
    (⟨r.scanner, r.scan_id, r.timestamp⟩ : FindingProps) hf
  have hv1 := keys_upsertNode_nodup g.vulns r.vulnerability.cwe_id
    (⟨r.vulnerability.title, r.vulnerability.description, r.vulnerability.severity,
      r.vulnerability.vector, r.vulnerability.owasp_id⟩ : VulnProps) hv
  have ha1 := keys_upsertNode_nodup g.assets (assetKey r.asset)
    (⟨r.asset.type, serviceVal r.asset⟩ : AssetProps) ha
  refine ⟨?_, ?_, ?_, ?_, ?_, ?_, ?_, ?_, ?_⟩
  · rw [ingestRecord_findings, ingestRecord_findings]
    exact countKey_upsertNode _ _ _ hf1
  · rw [ingestRecord_findings]
    exact lookupKey_upsertNode _ _ _
  · rw [ingestRecord_vulns, ingestRecord_vulns]
    exact countKey_upsertNode _ _ _ hv1
  · rw [ingestRecord_vulns]
    exact lookupKey_upsertNode _ _ _
  · rw [ingestRecord_assets, ingestRecord_assets]
    exact countKey_upsertNode _ _ _ ha1
  · rw [ingestRecord_assets]
    exact lookupKey_upsertNode _ _ _
  · rw [ingestRecord_hasVuln, ingestRecord_hasVuln,
      mergeEdge_of_mem (mem_mergeEdge_self _ _)]
    exact count_mergeEdge_self _ _ hhv
  · rw [ingestRecord_affects, ingestRecord_affects,
      mergeEdge_of_mem (mem_mergeEdge_self _ _)]
    exact count_mergeEdge_self _ _ haf
  · intro p hpkg
    constructor
    · rw [ingestRecord_packages, ingestRecord_packages, hpkg]
      simp only
      rw [mergeEdge_of_mem (mem_mergeEdge_self _ _)]
      exact count_mergeEdge_self _ _ hp
    · rw [ingestRecord_usesPackage, ingestRecord_usesPackage, hpkg]
      simp only
      rw [congrArg Prod.fst (pkgEdgeMerge_idem _ _ _ _)]
      exact countPkgEdges_pkgEdgeMerge _ _ _ hup

/-- Witness for C5 at the concrete record `Ex.record1` on the empty graph. -/
theorem C5_idempotent_ingestion_witness :
    countKey (ingestRecord (ingestRecord Graph.empty Ex.record1) Ex.record1).findings
        "f-001" = 1 ∧
      countEdge (ingestRecord (ingestRecord Graph.empty Ex.record1) Ex.record1).hasVuln
        ("f-001", "CWE-89") = 1 ∧
      countPkgEdges
        (ingestRecord (ingestRecord Graph.empty Ex.record1) Ex.record1).usesPackage
        ("lodash", "4.17.21") = 1 :=
  have h := C5_idempotent_ingestion Graph.empty Ex.record1 (by decide)
  ⟨h.1, h.2.2.2.2.2.2.2.1, (h.2.2.2.2.2.2.2.2 ⟨"lodash", "4.17.21"⟩ rfl).2⟩

section NormalizerTotality

open JSValue in
/-- A value passing `typeof v === "object" && v !== null` is an array or an
object. -/
theorem guard_shape {v : JSValue} (h : (typeofObject v && !isNull v) = true) :
    (∃ l, v = .arr l) ∨ (∃ f, v = .obj f) := by
  cases v <;> simp_all [typeofObject, isNull]

/-- The frontend `outputs.generations` block never throws on a non-null
object or array. -/
theorem outputsGenBlock_frontend_isOk (outputs : JSValue)
    (h : (typeofObject outputs && !isNull outputs) = true) :
    (outputsGenBlock_frontend outputs).isOk = true := by
  rcases guard_shape h with ⟨l, rfl⟩ | ⟨f, rfl⟩
  · rfl
  · simp only [outputsGenBlock_frontend, truthy, inOp, getField, fieldVal,
      bind, Except.bind, pure, Except.pure, if_true]
    split
    · generalize (List.lookup "generations" f).getD JSValue.undefined = gens
      cases gens <;>
        simp only [isArray, Bool.false_eq_true, if_false, if_true, getIndex,
          Except.isOk, Except.toBool]
      rename_i elems
      generalize elems.getD 0 JSValue.undefined = g0
      cases g0 <;>
        simp only [isArray, Bool.false_eq_true, if_false, if_true, getIndex,
          Except.isOk, Except.toBool]
      rename_i elems2
      split
      · rfl
      · rename_i heq
        split at heq <;> exact Except.noConfusion heq
    · simp [Except.isOk, Except.toBool]

/-- The shared messages/output tail of step 2 never throws on a non-null
object or array. -/
theorem outputsMsgsOutBlock_isOk (outputs : JSValue)
    (h : (typeofObject outputs && !isNull outputs) = true) :
    (outputsMsgsOutBlock outputs).isOk = true := by
  rcases guard_shape h with ⟨l, rfl⟩ | ⟨f, rfl⟩
  · rfl
  · simp only [outputsMsgsOutBlock, getField, fieldVal, asArr, bind,
      Except.bind, pure, Except.pure]
    generalize (List.lookup "messages" f).getD JSValue.undefined = msgs
    cases msgs <;> simp only [asArr]
    · split <;> rfl
    · split <;> rfl
    · split <;> rfl
    · split <;> rfl
    · split <;> rfl
    · rename_i elems
      rcases hfm : firstMsgContent elems with _ | c <;> simp only [hfm]
      · split <;> rfl
      · rfl
    · split <;> rfl

/-- The step-3 body never throws on a non-null object or array. -/
theorem topMsgsBlock_isOk (content : JSValue)
    (h : (typeofObject content && !isNull content) = true) :
    (topMsgsBlock content).isOk = true := by
  rcases guard_shape h with ⟨l, rfl⟩ | ⟨f, rfl⟩
  · rfl
  · simp only [topMsgsBlock, inOp, getField, fieldVal, bind, Except.bind,
      pure, Except.pure]
    split
    · generalize (List.lookup "messages" f).getD JSValue.undefined = msgs
      cases msgs <;> simp only [asArr] <;> try rfl
      rename_i elems
      rcases hfm : firstMsgContent elems with _ | c <;> (simp only [hfm]; rfl)
    · rfl

/-- The step-4 body never throws on a non-null object or array. -/
theorem topGensBlock_isOk (content : JSValue)
    (h : (typeofObject content && !isNull content) = true) :
    (topGensBlock content).isOk = true := by
  rcases guard_shape h with ⟨l, rfl⟩ | ⟨f, rfl⟩
  · rfl
  · simp only [topGensBlock, inOp, getField, fieldVal, bind, Except.bind,
      pure, Except.pure]
    split
    · generalize (List.lookup "generations" f).getD JSValue.undefined = gens
      cases gens <;>
        simp only [isArray, Bool.false_eq_true, if_false, if_true, getIndex,
          Except.isOk, Except.toBool]
      rename_i elems
      generalize elems.getD 0 JSValue.undefined = g0
      cases g0 <;>
        simp only [isArray, Bool.false_eq_true, if_false, if_true, getIndex,
          Except.isOk, Except.toBool]
      rename_i elems2
      split
      · rfl
      · rename_i heq
        split at heq <;> exact Except.noConfusion heq
    · rfl

/-- The guarded steps 3 and 4 of the frontend version never throw, whatever
the payload. -/
theorem steps34_frontend_isOk (content : JSValue) :
    (steps34_frontend content).isOk = true := by
  by_cases hg : (typeofObject content && !isNull content) = true
  · rcases hb : topMsgsBlock content with e | a
    · have hok := topMsgsBlock_isOk content hg
      rw [hb] at hok
      exact absurd hok (by simp [Except.isOk, Except.toBool])
    · simp only [steps34_frontend, hg, hb, if_true, bind, Except.bind,
        pure, Except.pure]
      rcases a with _ | r
      · rcases hb2 : topGensBlock content with e | a2
        · have hok := topGensBlock_isOk content hg
          rw [hb2] at hok
          exact absurd hok (by simp [Except.isOk, Except.toBool])
        · simp only [hb2]
          rcases a2 with _ | r2 <;> rfl
      · rfl
  · have hg' : (typeofObject content && !isNull content) = false :=
      eq_false_of_ne_true hg
    simp only [steps34_frontend, hg', Bool.false_eq_true, if_false,
      bind, Except.bind, pure, Except.pure]
    rfl

/-- The parsed-structure resolution of the frontend version never throws. -/
theorem extractParsed_frontend_isOk (content : JSValue) :
    (extractParsed_frontend content).isOk = true := by
  cases content with
  | obj f =>
    simp only [extractParsed_frontend, inOp, getField, fieldVal, typeofObject,
      isNull, Bool.true_and, Bool.not_false, Bool.and_true, if_true,
      bind, Except.bind, pure, Except.pure]
    split
    · generalize (List.lookup "outputs" f).getD JSValue.undefined = o
      split
      · rename_i hguard
        rcases hblk : outputsGenBlock_frontend o with e | a
        · have hok := outputsGenBlock_frontend_isOk o hguard
          rw [hblk] at hok
          exact absurd hok (by simp [Except.isOk, Except.toBool])
        · simp only [hblk]
          rcases a with _ | r
          · rcases hblk2 : outputsMsgsOutBlock o with e | a2
            · have hok := outputsMsgsOutBlock_isOk o hguard
              rw [hblk2] at hok
              exact absurd hok (by simp [Except.isOk, Except.toBool])
            · simp only [hblk2]
              rcases a2 with _ | r2
              · exact steps34_frontend_isOk (JSValue.obj f)
              · rfl
          · rfl
      · exact steps34_frontend_isOk (JSValue.obj f)
    · exact steps34_frontend_isOk (JSValue.obj f)
  | _ => rfl

end NormalizerTotality

/-- C3 (amended): the frontend implementation of `extractLLMContent` is
total and non-throwing — for every payload (any string whether or not it
parses as JSON, any object, array, number, `null` or `undefined`) and for
every behaviour of the external `JSON.parse`, it returns a result (a
display value or the `undefined` "no canonical text" signal) and never
throws.  The mindfort-agentic implementation does not have this property
(see the counterexample). -/
theorem C3_normalizer_total (jsonParse : String → Option JSValue)
    (raw : JSValue) : (extractLLMContent_frontend jsonParse raw).isOk = true := by
  cases raw with
  | str s =>
    simp only [extractLLMContent_frontend]
    rcases hp : jsonParse (normQuotes s) with _ | v <;> simp only [hp]
    · rfl
    · exact extractParsed_frontend_isOk v
  | _ =>
    simp only [extractLLMContent_frontend]
    exact extractParsed_frontend_isOk _

/-- Counterexample to C3 as stated over both cited implementations: the
mindfort-agentic `extractLLMContent` throws a `TypeError` on the numeric
payload `42` (the unguarded `"messages" in content` probe) and on the
object payload whose `outputs` field is `null` (the unguarded
`outputs.generations` dereference). -/
theorem C3_counterexample :
    extractLLMContent_mindfort (fun _ => none) (.num 42) = .error () ∧
      extractLLMContent_mindfort (fun _ => none)
        (.obj [("outputs", .null)]) = .error () :=
  ⟨rfl, rfl⟩

/-- Counterexample to C4 as stated: after a mid-stream read rejection the
loading flag is still `true` — the claimed loading-state reset does not
happen for chunk-read failures (only for `fetch`-level ones); no partial
message is appended, as the claim says. -/
theorem C4_counterexample :
    (sendMessage Ex.parse1 ⟨[], "hi".toList, false, []⟩
        (.response (some ⟨["data: x".toList], .readError⟩))).loading = true ∧
      (sendMessage Ex.parse1 ⟨[], "hi".toList, false, []⟩
        (.response (some ⟨["data: x".toList], .readError⟩))).messages =
        [{ role := .user, content := "hi".toList }] := by
  exact ⟨by decide, by decide⟩

section StreamReassembly

/-- `splitLines` always yields at least one (possibly empty) line. -/
theorem splitLines_ne_nil (l : Chars) : splitLines l ≠ [] := by
  cases l with
  | nil => simp [splitLines]
  | cons c cs =>
    simp only [splitLines]
    split
    · simp
    · split <;> simp

/-- Lines produced by `splitLines` contain no newline character. -/
theorem no_newline_of_mem_splitLines {s l : Chars} (h : l ∈ splitLines s) :
    '\n' ∉ l := by
  induction s generalizing l with
  | nil =>
    simp only [splitLines, List.mem_singleton] at h
    subst h
    simp
  | cons c cs ih =>
    simp only [splitLines] at h
    by_cases hc : c = '\n'
    · rw [if_pos hc] at h
      rcases List.mem_cons.mp h with rfl | hmem
      · simp
      · exact ih hmem
    · rw [if_neg hc] at h
      rcases hsc : splitLines cs with _ | ⟨x, xs⟩
      · exact absurd hsc (splitLines_ne_nil cs)
      · rw [hsc] at h
        rcases List.mem_cons.mp h with rfl | hmem
        · intro hin
          rcases List.mem_cons.mp hin with heq | hin'
          · exact hc heq.symm
          · exact ih (hsc ▸ List.mem_cons_self x xs) hin'
        · exact ih (hsc ▸ List.mem_cons.mpr (Or.inr hmem))

/-- A newline-free text is a single line. -/
theorem splitLines_of_no_newline {l : Chars} (h : '\n' ∉ l) :
    splitLines l = [l] := by
  induction l with
  | nil => rfl
  | cons c cs ih =>
    simp only [List.mem_cons, not_or] at h
    have hc : ¬(c = '\n') := fun hc => h.1 (hc ▸ rfl)
    have ih2 := ih h.2
    simp [splitLines, hc, ih2]

/-- Splitting a concatenation fuses the boundary lines. -/
theorem splitLines_append (a b : Chars) :
    splitLines (a ++ b) = mergeLast (splitLines a) (splitLines b) := by
  induction a with
  | nil =>
    rcases hsb : splitLines b with _ | ⟨y, ys⟩
    · exact absurd hsb (splitLines_ne_nil b)
    · simp [splitLines, mergeLast, mergeFirst, hsb]
  | cons c cs ih =>
    by_cases hc : c = '\n'
    · subst hc
      rcases hsc : splitLines cs with _ | ⟨x, xs⟩
      · exact absurd hsc (splitLines_ne_nil cs)
      · have hl : splitLines ('\n' :: (cs ++ b)) = [] :: splitLines (cs ++ b) := by
          simp [splitLines]
        have hr : splitLines ('\n' :: cs) = [] :: splitLines cs := by
          simp [splitLines]
        rw [List.cons_append, hl, hr, ih, hsc]
        cases xs <;> rfl
    · rcases hsc : splitLines cs with _ | ⟨x, xs⟩
      · exact absurd hsc (splitLines_ne_nil cs)
      rcases hscb : splitLines (cs ++ b) with _ | ⟨z, zs⟩
      · exact absurd hscb (splitLines_ne_nil (cs ++ b))
      have hl : splitLines (c :: (cs ++ b)) = (c :: z) :: zs := by
        simp [splitLines, hc, hscb]
      have hr : splitLines (c :: cs) = (c :: x) :: xs := by
        simp [splitLines, hc, hsc]
      rw [hscb, hsc] at ih
      rw [List.cons_append, hl, hr]
      cases xs with
      | nil =>
        rcases hsb : splitLines b with _ | ⟨y, ys⟩
        · exact absurd hsb (splitLines_ne_nil b)
        rw [hsb] at ih
        simp only [mergeLast, mergeFirst] at ih ⊢
        obtain ⟨rfl, rfl⟩ := List.cons.inj ih
        rfl
      | cons x2 xs2 =>
        simp only [mergeLast] at ih ⊢
        obtain ⟨rfl, rfl⟩ := List.cons.inj ih
        rfl

/-- `mergeLast` after appending a final line prepends that line to the
second list's first line. -/
theorem mergeLast_concat (xs : List Chars) (x : Chars) (ys : List Chars) :
    mergeLast (xs ++ [x]) ys = xs ++ mergeFirst x ys := by
  induction xs with
  | nil => rfl
  | cons z zs ih =>
    cases zs with
    | nil => cases ys <;> rfl
    | cons z2 zs2 => simpa [mergeLast] using ih

/-- The line loop distributes over appended line lists. -/
theorem readLines_append (parse : Chars → Option StepObj) (xs ys : List Chars) :
    readLines parse (xs ++ ys) =
      ((xs.map residueLine).flatten ++ (readLines parse ys).1,
        xs.filterMap (emitLine parse) ++ (readLines parse ys).2) := by
  induction xs with
  | nil => simp
  | cons l ls ih =>
    simp only [List.cons_append, readLines, ih, residueLine, emitLine,
      List.map_cons, List.flatten_cons, List.filterMap_cons]
    split
    · rename_i hpref
      rcases parse (l.drop 6) with _ | s <;> simp [hpref, ih, Prod.ext_iff]
    · rename_i hpref
      simp [hpref, ih, Prod.ext_iff]

/-- `mergeFirst` never yields an empty line list. -/
theorem mergeFirst_ne_nil (x : Chars) (ys : List Chars) :
    mergeFirst x ys ≠ [] := by
  cases ys <;> simp [mergeFirst]

/-- `getLastD` over an append with a non-empty right part ignores the left
part. -/
theorem getLastD_append_right {α : Type} (xs : List α) {ys : List α}
    (hy : ys ≠ []) (d : α) : (xs ++ ys).getLastD d = ys.getLastD d := by
  rcases ys with _ | ⟨y, ys'⟩
  · exact absurd rfl hy
  rw [List.getLastD_eq_getLast?, List.getLastD_eq_getLast?, List.getLast?_append]
  rcases hgl : (y :: ys').getLast? with _ | z
  · exact absurd hgl (by simp [List.getLast?_eq_getLast])
  · rfl

/-- All residues of empty-or-marked lines are empty. -/
theorem flatten_residue_nil {init : List Chars}
    (h : ∀ l ∈ init, l = [] ∨ dpfx.isPrefixOf l = true) :
    (init.map residueLine).flatten = [] := by
  induction init with
  | nil => rfl
  | cons l ls ih =>
    have hres : residueLine l = [] := by
      rcases h l (List.mem_cons_self l ls) with rfl | hp
      · rfl
      · simp [residueLine, hp]
    simp only [List.map_cons, List.flatten_cons, hres, List.nil_append]
    exact ih (fun l' hl' => h l' (List.mem_cons.mpr (Or.inr hl')))

/-- The line loop over marked-or-empty complete lines followed by an
unmarked trailing line: the trailing line is carried whole into the buffer
and the steps are the decodable marked lines, in order. -/
theorem readLines_split (parse : Chars → Option StepObj) {init : List Chars}
    {last : Chars} (h1 : ∀ l ∈ init, l = [] ∨ dpfx.isPrefixOf l = true)
    (h2 : ¬ dpfx.isPrefixOf last = true) :
    readLines parse (init ++ [last]) =
      (last, init.filterMap (emitLine parse)) := by
  rw [readLines_append, flatten_residue_nil h1]
  simp [readLines, h2]

/-- Key composition step: when every complete line seen so far is empty or
marked and the carried partial line is unmarked, processing two chunks one
after the other equals processing their concatenation. -/
theorem readChunk_comp (parse : Chars → Option StepObj) (buf c d : Chars)
    (steps : List StepObj)
    (H1 : ∀ l ∈ (splitLines (buf ++ c)).dropLast, l = [] ∨ dpfx.isPrefixOf l = true)
    (H2 : ¬ dpfx.isPrefixOf ((splitLines (buf ++ c)).getLastD []) = true) :
    readChunk parse (readChunk parse (buf, steps) c) d =
      readChunk parse (buf, steps) (c ++ d) := by
  obtain ⟨init, last, hu⟩ : ∃ i l, splitLines (buf ++ c) = i ++ [l] :=
    ⟨(splitLines (buf ++ c)).dropLast,
      (splitLines (buf ++ c)).getLast (splitLines_ne_nil _),
      (List.dropLast_append_getLast (splitLines_ne_nil _)).symm⟩
  rw [hu, List.dropLast_concat] at H1
  rw [hu, List.getLastD_concat] at H2
  have hlast_nn : '\n' ∉ last :=
    no_newline_of_mem_splitLines
      (by rw [hu]; exact List.mem_append_right _ (List.mem_singleton.mpr rfl))
  have hinner : readChunk parse (buf, steps) c =
      (last, steps ++ init.filterMap (emitLine parse)) := by
    simp only [readChunk, hu, readLines_split parse H1 H2]
  have hlastd : splitLines (last ++ d) = mergeFirst last (splitLines d) := by
    rw [splitLines_append, splitLines_of_no_newline hlast_nn]
    rfl
  have hfull : splitLines (buf ++ (c ++ d)) = init ++ mergeFirst last (splitLines d) := by
    rw [← List.append_assoc, splitLines_append, hu, mergeLast_concat]
  rw [hinner]
  simp only [readChunk, hlastd, hfull]
  rw [readLines_append parse init (mergeFirst last (splitLines d)),
    flatten_residue_nil H1]
  simp [List.append_assoc]

/-- Generalised reassembly invariant: starting from a newline-free, unmarked
carry buffer, folding the read loop over a chunk list equals one read over
the concatenation, provided every complete line of the whole text is empty
or marked and no intermediate carried partial line is marked. -/
theorem foldl_readChunk_eq (parse : Chars → Option StepObj) (chunks : List Chars) :
    ∀ (buf : Chars) (steps : List StepObj),
      '\n' ∉ buf →
      ¬ dpfx.isPrefixOf buf = true →
      (∀ l ∈ (splitLines (buf ++ chunks.flatten)).dropLast,
        l = [] ∨ dpfx.isPrefixOf l = true) →
      (∀ k, 0 < k → k < chunks.length →
        ¬ dpfx.isPrefixOf
          ((splitLines (buf ++ (chunks.take k).flatten)).getLastD []) = true) →
      List.foldl (readChunk parse) (buf, steps) chunks =
        readChunk parse (buf, steps) chunks.flatten := by
  induction chunks with
  | nil =>
    intro buf steps hnn hnp _ _
    simp only [List.foldl_nil, List.flatten_nil, readChunk, List.append_nil]
    rw [splitLines_of_no_newline hnn]
    simp [readLines, hnp]
  | cons c cs ih =>
    intro buf steps hnn hnp H1 H2
    rcases cs with _ | ⟨c2, cs2⟩
    · simp [List.flatten]
    obtain ⟨init, last, hu⟩ : ∃ i l, splitLines (buf ++ c) = i ++ [l] :=
      ⟨(splitLines (buf ++ c)).dropLast,
        (splitLines (buf ++ c)).getLast (splitLines_ne_nil _),
        (List.dropLast_append_getLast (splitLines_ne_nil _)).symm⟩
    have h2c : ¬ dpfx.isPrefixOf last = true := by
      have h := H2 1 (by omega) (by simp)
      simpa [hu, List.getLastD_concat] using h
    have hlast_nn : '\n' ∉ last :=
      no_newline_of_mem_splitLines
        (by rw [hu]; exact List.mem_append_right _ (List.mem_singleton.mpr rfl))
    have hfull : splitLines (buf ++ (c :: c2 :: cs2).flatten) =
        init ++ mergeFirst last (splitLines (c2 :: cs2).flatten) := by
      rw [List.flatten_cons, ← List.append_assoc, splitLines_append, hu,
        mergeLast_concat]
    have h1c : ∀ l ∈ init, l = [] ∨ dpfx.isPrefixOf l = true := by
      intro l hl
      apply H1
      rw [hfull, List.dropLast_append_of_ne_nil init (mergeFirst_ne_nil _ _)]
      exact List.mem_append_left _ hl
    have hinner : readChunk parse (buf, steps) c =
        (last, steps ++ init.filterMap (emitLine parse)) := by
      simp only [readChunk, hu, readLines_split parse h1c h2c]
    have hlastd : ∀ w, splitLines (last ++ w) = mergeFirst last (splitLines w) := by
      intro w
      rw [splitLines_append, splitLines_of_no_newline hlast_nn]
      rfl
    have H1' : ∀ l ∈ (splitLines (last ++ (c2 :: cs2).flatten)).dropLast,
        l = [] ∨ dpfx.isPrefixOf l = true := by
      intro l hl
      apply H1
      rw [hfull, List.dropLast_append_of_ne_nil init (mergeFirst_ne_nil _ _)]
      refine List.mem_append_right _ ?_
      rw [hlastd ((c2 :: cs2).flatten)] at hl
      exact hl
    have H2' : ∀ k, 0 < k → k < (c2 :: cs2).length →
        ¬ dpfx.isPrefixOf
          ((splitLines (last ++ ((c2 :: cs2).take k).flatten)).getLastD []) = true := by
      intro k hk0 hklen
      have hfull_k : splitLines (buf ++ ((c :: c2 :: cs2).take (k + 1)).flatten) =
          init ++ mergeFirst last (splitLines (((c2 :: cs2).take k).flatten)) := by
        rw [List.take_succ_cons, List.flatten_cons, ← List.append_assoc,
          splitLines_append, hu, mergeLast_concat]
      have h := H2 (k + 1) (by omega) (by simpa using hklen)
      rw [hfull_k, getLastD_append_right init (mergeFirst_ne_nil _ _) []] at h
      rw [hlastd (((c2 :: cs2).take k).flatten)]
      exact h
    rw [List.foldl_cons]
    rw [hinner, ih last (steps ++ init.filterMap (emitLine parse))
      hlast_nn h2c H1' H2', ← hinner, List.flatten_cons]
    exact readChunk_comp parse buf c (c2 :: cs2).flatten steps
      (by rw [hu, List.dropLast_concat]; exact h1c)
      (by rw [hu, List.getLastD_concat]; exact h2c)

end StreamReassembly

/-- C2 (amended): feeding the chunks one at a time emits the same buffer
and the same ordered step sequence as feeding the whole text at once,
PROVIDED (i) every complete line of the text is empty or carries the
`"data: "` marker and (ii) no intermediate chunk boundary leaves a carried
partial line that itself begins with `"data: "`.  Without (ii) the claim is
false (see the counterexample): a carried partial line beginning with the
marker — e.g. a boundary inside the JSON object after the prefix — is fed
to `JSON.parse`, fails, and is dropped instead of being carried over. -/
theorem C2_stream_reassembly (parse : Chat.Chars → Option StepObj)
    (chunks : List Chat.Chars)
    (H1 : ∀ l ∈ (splitLines chunks.flatten).dropLast,
      l = [] ∨ dpfx.isPrefixOf l = true)
    (H2 : ∀ k, 0 < k → k < chunks.length →
      ¬ dpfx.isPrefixOf ((splitLines (chunks.take k).flatten).getLastD []) = true) :
    readChunks parse chunks = readChunks parse [chunks.flatten] := by
  unfold readChunks
  rw [foldl_readChunk_eq parse chunks [] [] (by simp) (by decide)
    (by simpa using H1) (by simpa using H2)]
  simp

/-- Witness for C2 on a two-chunk split falling inside the event marker
itself ("data:" / rest): reassembly equals single-chunk processing and
yields the example's Thought step. -/
theorem C2_stream_reassembly_witness :
    readChunks Ex.parse1
        ["data:".toList,
          (" \x7b\"step\":\"Thought\",\"content\":\"checking\"\x7d\n").toList] =
      readChunks Ex.parse1
        ["data: \x7b\"step\":\"Thought\",\"content\":\"checking\"\x7d\n".toList] ∧
    (readChunks Ex.parse1
        ["data:".toList,
          (" \x7b\"step\":\"Thought\",\"content\":\"checking\"\x7d\n").toList]).2 =
      [{ step := "Thought".toList, content := "checking".toList
         trace_id := some "t-1".toList }] := by
  constructor
  · have h := C2_stream_reassembly Ex.parse1
      ["data:".toList,
        (" \x7b\"step\":\"Thought\",\"content\":\"checking\"\x7d\n").toList]
      (by decide)
      (by
        intro k hk0 hklen
        simp only [List.length_cons, List.length_nil] at hklen
        have hk : k = 1 := by omega
        subst hk
        decide)
    simpa using h
  · decide

/-- Counterexample to C2 as stated: splitting the same event line inside
the JSON object just after the `"data: "` marker loses the step — the
single-chunk run emits it, the two-chunk run emits nothing. -/
theorem C2_counterexample :
    (readChunks Ex.parse1 [Ex.chunkA ++ Ex.chunkB]).2 =
        [{ step := "Thought".toList, content := "checking".toList
           trace_id := some "t-1".toList }] ∧
      (readChunks Ex.parse1 [Ex.chunkA, Ex.chunkB]).2 = [] := by
  exact ⟨by decide, by decide⟩

end Theorems
